import Mathlib

/-!
# Verification of the kuckmal Filmliste ingestion pipeline

Shallow embedding of the ingestion pipeline of the `kuckmal` repository
(`api/services/parser_service.py`, `api/services/download_service.py`,
`api/utils/url_utils.py`) and proofs about it.

Modelling conventions:

* Python `str` values are modelled as `List Char`; status-dictionary string
  fields use Lean `String` (they are only ever built from literals).
* Python `int(s)` is modelled by `pyInt?`, returning `none` where the source
  raises `ValueError`.  The model covers ASCII decimal digits, an optional
  sign, surrounding whitespace and the underscore digit-grouping rule; the
  source additionally accepts non-ASCII Unicode decimal digits, which the
  model leaves out.
* The regex stage `re.finditer(r'"X"\s*:\s*\[(.*?)\]', content)` of
  `parse_and_import` is modelled by handing the run the list of matched array
  bodies (the `group(1)` texts); consequently an array body never contains
  `']'`.
* The database is modelled as the list of rows in insertion order; the unique
  index `idx_unique_entry` on (channel, theme, title) drives the two
  SQLAlchemy/SQLite conflict policies of `_insert_batch`.
* Cooperative cancellation (`cancel()` sets `should_cancel` from another
  thread) is modelled by a schedule argument `cancelIn : Option Nat`:
  `some k` means the flag becomes set at the k-th poll point of the loop,
  `none` means no cancel request arrives while the run is active.
-/

set_option autoImplicit false

namespace Kuckmal

/-! ## A model of Python `int(str)` -/

/-- Accumulating digit loop for `pyInt?`: consumes ASCII digits, allowing a
single underscore between two digits (Python's digit-grouping rule). -/
def digitsGo (acc : Nat) : List Char → Option Nat
  | [] => some acc
  | c :: rest =>
    if c.isDigit then digitsGo (acc * 10 + (c.toNat - '0'.toNat)) rest
    else if c = '_' then
      match rest with
      | d :: rest2 =>
        if d.isDigit then digitsGo (acc * 10 + (d.toNat - '0'.toNat)) rest2
        else none
      | [] => none
    else none

/-- Parse a non-empty run of decimal digits (with underscore grouping). -/
def digitsVal : List Char → Option Nat
  | [] => none
  | c :: rest =>
    if c.isDigit then digitsGo (c.toNat - '0'.toNat) rest else none

/-- Strip leading and trailing whitespace (Python strips around the number). -/
def stripWs (l : List Char) : List Char :=
  ((l.dropWhile Char.isWhitespace).reverse.dropWhile Char.isWhitespace).reverse

/-- Model of Python `int(s)`: `none` where the source raises `ValueError`. -/
def pyInt? (l : List Char) : Option Int :=
  match stripWs l with
  | '+' :: rest => (digitsVal rest).map Int.ofNat
  | '-' :: rest => (digitsVal rest).map (fun n => -(n : Int))
  | rest => (digitsVal rest).map Int.ofNat

/-! ## `api/utils/url_utils.py`: `reconstruct_url` -/

/-- Model of Python `s.split(sep, 1)` for a single-character separator,
returning the pieces before and after the first occurrence. -/
def pySplitOnce (sep : Char) (l : List Char) : List Char × List Char :=
  (l.takeWhile (fun c => c ≠ sep), (l.dropWhile (fun c => c ≠ sep)).drop 1)

/-- Embedding of `reconstruct_url(base_url, relative_url)`
(`api/utils/url_utils.py`, lines 4–28). -/
def reconstruct_url (base_url relative_url : List Char) : List Char :=
  if relative_url = [] ∨ '|' ∉ relative_url then relative_url
  else
    let parts := pySplitOnce '|' relative_url
    match pyInt? parts.1 with
    | none => relative_url
    | some offset =>
      if 0 < offset ∧ offset ≤ (base_url.length : Int) then
        base_url.take offset.toNat ++ parts.2
      else relative_url

/-! ## `ParserService._parse_array_values`: the record scanner

Embedding of `api/services/parser_service.py`, lines 188–225.  The outer
`while` loop becomes `parseValuesAux` (structural recursion on a fuel bound
that always suffices, see `parseArrayValues`); the three inner loops become
`skipSep` (skip whitespace and commas), `scanQuoted` (scan to the matching
unescaped quote) and `skipNonString` (skip a non-string literal). -/

/-- Lines 196–197: skip any run of whitespace or commas. -/
def skipSep : List Char → List Char
  | [] => []
  | c :: t =>
    if c = ' ' ∨ c = '\t' ∨ c = '\n' ∨ c = '\r' ∨ c = ',' then skipSep t else c :: t

/-- Lines 205–213: scan a quoted string body.  Returns the raw span between
the opening quote and the matching unescaped closing quote, and the
remainder after the closing quote.  A backslash consumes the following
character verbatim when one exists; a trailing lone backslash is kept and
ends the scan (in the source, `i` runs past the end and the final `i += 1`
lands beyond the buffer, leaving an empty remainder). -/
def scanQuoted : List Char → List Char × List Char
  | [] => ([], [])
  | c :: t =>
    if c = '\\' then
      match t with
      | c2 :: t2 =>
        let p := scanQuoted t2
        (c :: c2 :: p.1, p.2)
      | [] => (['\\'], [])
    else if c = '"' then ([], t)
    else
      let p := scanQuoted t
      (c :: p.1, p.2)

/-- Lines 221–222: skip a non-string token up to the next `,` or `]`. -/
def skipNonString : List Char → List Char
  | [] => []
  | c :: t => if c = ',' ∨ c = ']' then c :: t else skipNonString t

/-- Model of Python `value.replace('\\"', '"')`: left-to-right,
non-overlapping replacement of backslash-quote by quote. -/
def replQuote : List Char → List Char
  | [] => []
  | [c] => [c]
  | c :: c2 :: t2 =>
    if c = '\\' ∧ c2 = '"' then '"' :: replQuote t2 else c :: replQuote (c2 :: t2)

/-- Model of Python `value.replace('\\\\', '\\')`: left-to-right,
non-overlapping replacement of double backslash by a single backslash. -/
def replBackslash : List Char → List Char
  | [] => []
  | [c] => [c]
  | c :: c2 :: t2 =>
    if c = '\\' ∧ c2 = '\\' then '\\' :: replBackslash t2 else c :: replBackslash (c2 :: t2)

/-- Line 216: `value.replace('\\"', '"').replace('\\\\', '\\')`. -/
def unescapeValue (l : List Char) : List Char := replBackslash (replQuote l)

/-- The main scanner loop (lines 194–223), on fuel.  Each iteration emits one
token.  If the remainder after a non-string token is not shorter (which
happens exactly when the scan position sits on a `]`, where the source
loops forever appending empty tokens), the recursion stops after appending
the one empty token; regex-extracted array bodies never contain `]`, so
this branch is unreachable for the inputs the source feeds this code. -/
def parseValuesAux : Nat → List Char → List (List Char)
  | 0, _ => []
  | fuel + 1, s =>
    match skipSep s with
    | [] => []
    | c :: t =>
      if c = '"' then
        unescapeValue (scanQuoted t).1 :: parseValuesAux fuel (scanQuoted t).2
      else
        let rest := skipNonString (c :: t)
        if rest.length < s.length then [] :: parseValuesAux fuel rest
        else [[]]

/-- Embedding of `_parse_array_values(arr_content)`: the fuel
`s.length + 1` always suffices because every loop iteration consumes at
least one character (see `parseValuesAux`). -/
def parseArrayValues (s : List Char) : List (List Char) :=
  parseValuesAux (s.length + 1) s

/-! ## C9: escaped quotes and backslashes in quoted tokens -/

/-- The source text of a quoted-string body in which every backslash opens
one of the two escape sequences `\"` or `\\`, and every quote is escaped
(matching the claim: a token "whose source text includes escaped quotes
(backslash-quote) or escaped backslashes (backslash-backslash)"). -/
inductive Esc : List Char → Prop where
  | nil : Esc []
  | quote {t : List Char} : Esc t → Esc ('\\' :: '"' :: t)
  | slash {t : List Char} : Esc t → Esc ('\\' :: '\\' :: t)
  | other {c : Char} {t : List Char} : c ≠ '\\' → c ≠ '"' → Esc t → Esc (c :: t)

/-- The claim's "exactly unescaped literal value", as a single left-to-right
pass: each `\"` becomes `"`, each `\\` becomes `\`, all other characters
are copied. -/
def unescSpec : List Char → List Char
  | [] => []
  | [c] => [c]
  | c :: c2 :: t2 =>
    if c = '\\' ∧ (c2 = '"' ∨ c2 = '\\') then c2 :: unescSpec t2
    else c :: unescSpec (c2 :: t2)

/-- Proof-only intermediate: the value after the first `replace` of line 216
(only `\"` collapsed, `\\` kept) on an escaped literal. -/
def escMid : List Char → List Char
  | [] => []
  | [c] => [c]
  | c :: c2 :: t2 =>
    if c = '\\' ∧ c2 = '"' then '"' :: escMid t2
    else if c = '\\' ∧ c2 = '\\' then '\\' :: '\\' :: escMid t2
    else c :: escMid (c2 :: t2)

/-! ## `ParserService.parse_and_import` and `_insert_batch`

Embedding of `api/services/parser_service.py`, lines 67–186 and 227–259.
A `MediaEntry` row carries the fields of `models.py`; the table is the list
of rows in insertion order, and the unique index `idx_unique_entry` on
(channel, theme, title) decides conflicts. -/

/-- One `media_entries` row (`api/models.py`, lines 9–35; the surrogate `id`
column is not modelled, rows are identified by position). -/
structure Entry where
  channel : List Char
  theme : List Char
  title : List Char
  date : List Char
  time : List Char
  duration : List Char
  sizeMB : List Char
  description : List Char
  url : List Char
  website : List Char
  subtitleUrl : List Char
  smallUrl : List Char
  hdUrl : List Char
  timestamp : Int
  geo : List Char
  isNew : Bool
deriving DecidableEq

/-- The stored table: rows in insertion order. -/
abbrev Db := List Entry

/-- The unique-index key of `idx_unique_entry`. -/
def entryKey (e : Entry) : List Char × List Char × List Char := (e.channel, e.theme, e.title)

/-- The row a point query on the unique key returns. -/
def findRow (db : Db) (k : List Char × List Char × List Char) : Option Entry :=
  db.find? (fun r => decide (entryKey r = k))

/-- Whether an insert of a row with key `k` conflicts with the unique index. -/
def hasKey (db : Db) (k : List Char × List Char × List Char) : Bool :=
  db.any (fun r => decide (entryKey r = k))

/-- The `set_` clause of `on_conflict_do_update` (lines 236–250): every
field except the key columns is overwritten with the incoming values. -/
def conflictUpdate (r e : Entry) : Entry :=
  { channel := r.channel, theme := r.theme, title := r.title,
    date := e.date, time := e.time, duration := e.duration, sizeMB := e.sizeMB,
    description := e.description, url := e.url, website := e.website,
    subtitleUrl := e.subtitleUrl, smallUrl := e.smallUrl, hdUrl := e.hdUrl,
    timestamp := e.timestamp, geo := e.geo, isNew := e.isNew }

/-- One `db_session.execute(stmt)` of `_insert_batch` (lines 230–257):
`on_conflict_do_update` when `is_diff`, `on_conflict_do_nothing` otherwise,
both keyed on (channel, theme, title). -/
def insertEntry (db : Db) (e : Entry) (is_diff : Bool) : Db :=
  if is_diff then
    if hasKey db (entryKey e) then
      db.map (fun r => if entryKey r = entryKey e then conflictUpdate r e else r)
    else db ++ [e]
  else
    if hasKey db (entryKey e) then db else db ++ [e]

/-- `_insert_batch(db_session, entries, is_diff)` (lines 227–259): the
per-entry upserts in order, then one `commit` making the batch durable. -/
def insert_batch (db : Db) (entries : List Entry) (is_diff : Bool) : Db :=
  entries.foldl (fun d e => insertEntry d e is_diff) db

/-- Python `s.lower()` (ASCII suffices for the `"true"` comparison). -/
def pyLower (l : List Char) : List Char := l.map Char.toLower

/-- Python `values[i] if len(values) > i else ""`. -/
def getTok (values : List (List Char)) (i : Nat) : List Char := values.getD i []

/-- Lines 120–150: build the `entry_data` record from the resolved channel
and theme and the positional token list.  `timestamp` falls back to 0 when
`int(...)` fails; `isNew` is the case-insensitive comparison with
`"true"`. -/
def mkEntry (channel theme : List Char) (values : List (List Char)) : Entry :=
  { channel := channel, theme := theme,
    title := getTok values 2, date := getTok values 3, time := getTok values 4,
    duration := getTok values 5, sizeMB := getTok values 6, description := getTok values 7,
    url := getTok values 8, website := getTok values 9, subtitleUrl := getTok values 10,
    smallUrl := getTok values 12, hdUrl := getTok values 14,
    timestamp :=
      if 16 < values.length ∧ getTok values 16 ≠ [] then
        match pyInt? (getTok values 16) with
        | some n => n
        | none => 0
      else 0,
    geo := getTok values 18,
    isNew :=
      if 19 < values.length ∧ getTok values 19 ≠ [] then
        decide (pyLower (getTok values 19) = ['t', 'r', 'u', 'e'])
      else false }

/-- The parser's status dictionary (`self.status`). -/
structure PStatus where
  state : String
  progress : Nat
  entries_parsed : Nat
  message : String
deriving DecidableEq

/-- Observable outcome of a `parse_and_import` run: the returned count, the
table after the last commit, and the final status. -/
structure RunResult where
  total : Nat
  db : Db
  status : PStatus
deriving DecidableEq

/-- `config.PARSER_BATCH_SIZE`. -/
def PARSER_BATCH_SIZE : Nat := 5000

/-- Advance the cancellation schedule by one poll point. -/
def tickCancel : Option Nat → Option Nat
  | none => none
  | some k => some (k - 1)

/-- The value of `self.should_cancel` at a poll point: the base value left
by line 86, or the externally scheduled `cancel()` once it has arrived
(and it stays set afterwards). -/
def cancelNow (baseFlag : Bool) : Option Nat → Bool
  | none => baseFlag
  | some k => baseFlag || decide (k = 0)

/-- Lines 80–85: the status reset at the start of a run. -/
def parsingStatus : PStatus :=
  { state := "parsing", progress := 0, entries_parsed := 0, message := "Parsing entries..." }

/-- Lines 170–175: the terminal status of a run that leaves the `for` loop. -/
def completeStatus (total : Nat) : PStatus :=
  { state := "complete", progress := 100, entries_parsed := total,
    message := "Import complete: " ++ toString total ++ " entries" }

/-- Lines 165–177: flush the remaining partial batch, set the `complete`
status and return the total. -/
def finishRun (entries : List Entry) (total_imported : Nat) (db : Db) (is_diff : Bool) : RunResult :=
  if entries = [] then
    { total := total_imported, db := db, status := completeStatus total_imported }
  else
    { total := total_imported + entries.length,
      db := insert_batch db entries is_diff,
      status := completeStatus (total_imported + entries.length) }

/-- The `for match in matches` loop of `parse_and_import` (lines 101–177):
cancellation poll, scan, inheritance, channel/theme guard, mapping,
batching with flushes of `PARSER_BATCH_SIZE` entries, then the final
flush.  The mid-loop status writes of lines 159–160 are threaded through
`st`; the source replaces the status wholesale on exit. -/
def importLoop (baseCancel : Bool) (cancelIn : Option Nat) (bodies : List (List Char))
    (prev_channel prev_theme : List Char) (entries : List Entry)
    (total_imported : Nat) (db : Db) (st : PStatus) (is_diff : Bool) : RunResult :=
  match bodies with
  | [] => finishRun entries total_imported db is_diff
  | body :: rest =>
    if cancelNow baseCancel cancelIn then finishRun entries total_imported db is_diff
    else
      let values := parseArrayValues body
      if values.length < 3 then
        importLoop baseCancel (tickCancel cancelIn) rest prev_channel prev_theme entries
          total_imported db st is_diff
      else
        let channel := if getTok values 0 ≠ [] then getTok values 0 else prev_channel
        let theme := if getTok values 1 ≠ [] then getTok values 1 else prev_theme
        if channel = [] ∨ theme = [] then
          importLoop baseCancel (tickCancel cancelIn) rest channel theme entries
            total_imported db st is_diff
        else
          let entries1 := entries ++ [mkEntry channel theme values]
          if PARSER_BATCH_SIZE ≤ entries1.length then
            importLoop baseCancel (tickCancel cancelIn) rest channel theme []
              (total_imported + entries1.length) (insert_batch db entries1 is_diff)
              { st with entries_parsed := total_imported + entries1.length,
                        message := "Imported " ++ toString (total_imported + entries1.length) ++
                          " entries..." }
              is_diff
          else
            importLoop baseCancel (tickCancel cancelIn) rest channel theme entries1
              total_imported db st is_diff

/-- The parser-service state visible to `parse_and_import`. -/
structure Svc where
  status : PStatus
  should_cancel : Bool
deriving DecidableEq

/-- `parse_and_import` (lines 67–186): reset the status (lines 80–85),
clear `should_cancel` (line 86), then run the loop over the regex matches.
The error path of lines 179–186 concerns the file read, which is outside
the model (the matches are given). -/
def parse_and_import (svc : Svc) (cancelIn : Option Nat) (bodies : List (List Char))
    (db : Db) (is_diff : Bool) : RunResult :=
  let svc1 : Svc := { status := parsingStatus, should_cancel := false }
  importLoop svc1.should_cancel cancelIn bodies [] [] [] 0 db svc1.status is_diff

/-- The pure scan-resolve-map pipeline of lines 101–151, without batching:
the list of mapped records a run submits to storage, in order.  Used to
specify the loop (`importLoop_none_eq`). -/
def mapRecords (pc pt : List Char) : List (List Char) → List Entry
  | [] => []
  | body :: rest =>
    let values := parseArrayValues body
    if values.length < 3 then mapRecords pc pt rest
    else
      let channel := if getTok values 0 ≠ [] then getTok values 0 else pc
      let theme := if getTok values 1 ≠ [] then getTok values 1 else pt
      if channel = [] ∨ theme = [] then mapRecords channel theme rest
      else mkEntry channel theme values :: mapRecords channel theme rest

/-- What a completed (uncancelled) run amounts to: all submitted records
folded into the table and counted. -/
def runOutcome (total0 : Nat) (db : Db) (entries : List Entry) (is_diff : Bool) : RunResult :=
  { total := total0 + entries.length,
    db := insert_batch db entries is_diff,
    status := completeStatus (total0 + entries.length) }

/-! ## `ParserService.decompress_xz` (lines 26–65)

The decompressed byte stream is modelled as the list of 8 KiB chunks
`lzma.open(...).read(8192)` yields; the error paths (`LZMAError`,
`IOError`) concern the file system and are outside the model. -/

/-- Outcome of `decompress_xz`: the returned boolean, the final status, and
the chunks written to the output file. -/
structure DecompressResult where
  ok : Bool
  status : PStatus
  written : List (List Char)
deriving DecidableEq

/-- Lines 28–33: the status set on entry to `decompress_xz`. -/
def decompressingStatus : PStatus :=
  { state := "decompressing", progress := 0, entries_parsed := 0,
    message := "Decompressing file..." }

/-- The chunk-copy loop of lines 38–44: write each chunk, then poll the
cancellation flag and return `False` — with the status left untouched —
when it is set; on exhaustion, lines 46–48 set `decompress_complete` and
return `True`. -/
def decompressLoop (baseCancel : Bool) (cancelIn : Option Nat) (chunks : List (List Char))
    (written : List (List Char)) (st : PStatus) : DecompressResult :=
  match chunks with
  | [] =>
    { ok := true,
      status := { st with state := "decompress_complete", message := "Decompression complete" },
      written := written }
  | c :: rest =>
    if cancelNow baseCancel cancelIn then
      { ok := false, status := st, written := written ++ [c] }
    else decompressLoop baseCancel (tickCancel cancelIn) rest (written ++ [c]) st

/-- `decompress_xz` (lines 26–65), success and cancellation paths.  Unlike
`parse_and_import`, it does not reset `should_cancel` on entry. -/
def decompress_xz (svcFlag : Bool) (cancelIn : Option Nat)
    (chunks : List (List Char)) : DecompressResult :=
  decompressLoop svcFlag cancelIn chunks [] decompressingStatus

/-! ## C8: the field-inheritance resolver (lines 108–118) viewed standalone -/

/-- Lines 108–114 for each scanned record, in document order: skip records
with fewer than 3 tokens, resolve empty channel/theme tokens from the
context, and update the context to the resolved values (not the raw
tokens).  Emits the resolved (channel, theme) pair of every record that
reaches the inheritance step. -/
def resolveRecords (pc pt : List Char) : List (List (List Char)) → List (List Char × List Char)
  | [] => []
  | values :: rest =>
    if values.length < 3 then resolveRecords pc pt rest
    else
      (if getTok values 0 ≠ [] then getTok values 0 else pc,
       if getTok values 1 ≠ [] then getTok values 1 else pt) ::
        resolveRecords (if getTok values 0 ≠ [] then getTok values 0 else pc)
          (if getTok values 1 ≠ [] then getTok values 1 else pt) rest

/-! ## C2: the concurrent-start guard of `DownloadService._download_file`
(`api/services/download_service.py`, lines 41–67) -/

/-- The download service's status dictionary. -/
structure DlStatus where
  state : String
  progress : Nat
  downloaded : Nat
  total : Nat
  message : String
deriving DecidableEq

/-- The download service's mutable state. -/
structure DlSvc where
  is_downloading : Bool
  should_cancel : Bool
  status : DlStatus
deriving DecidableEq

/-- The lock-guarded entry section of `_download_file` (lines 48–67): with a
download already in progress, overwrite the status with an error
dictionary and return failure; otherwise mark the service busy, clear the
cancel flag and set the `downloading` status.  The first component is the
guard's verdict (`false` = rejected); the network transfer that follows a
successful entry is outside the model (spec §1). -/
def downloadFileEntry (svc : DlSvc) : Bool × DlSvc :=
  if svc.is_downloading then
    (false, { svc with status := { state := "error", progress := 0, downloaded := 0, total := 0,
                                   message := "Download already in progress" } })
  else
    (true, { is_downloading := true, should_cancel := false,
             status := { state := "downloading", progress := 0, downloaded := 0, total := 0,
                         message := "Starting download..." } })

example : pyInt? ['2', '3'] = some 23 := by decide
example : pyInt? [' ', '+', '1', '_', '0', ' '] = some 10 := by decide
example : pyInt? ['-', '5'] = some (-5) := by decide
example : pyInt? ['2', 'x'] = none := by decide
example : pyInt? [] = none := by decide
example : reconstruct_url ['a', 'b', 'c'] ['2', '|', 'x'] = ['a', 'b', 'x'] := by decide
example : reconstruct_url ['a', 'b', 'c'] ['9', '|', 'x'] = ['9', '|', 'x'] := by decide
example : reconstruct_url ['a', 'b', 'c'] ['y', 'x'] = ['y', 'x'] := by decide

lemma takeWhile_append_pipe (off suffix : List Char) (h : '|' ∉ off) :
    (off ++ '|' :: suffix).takeWhile (fun c => decide (c ≠ '|')) = off := by
  induction off with
  | nil => simp [List.takeWhile_cons]
  | cons c t ih =>
    have hc : c ≠ '|' := fun e => h (e ▸ List.mem_cons_self c t)
    have ih2 := ih (fun m => h (List.mem_cons_of_mem c m))
    simpa [List.takeWhile_cons, hc] using ih2

lemma dropWhile_append_pipe (off suffix : List Char) (h : '|' ∉ off) :
    (off ++ '|' :: suffix).dropWhile (fun c => decide (c ≠ '|')) = '|' :: suffix := by
  induction off with
  | nil => simp [List.dropWhile_cons]
  | cons c t ih =>
    have hc : c ≠ '|' := fun e => h (e ▸ List.mem_cons_self c t)
    have ih2 := ih (fun m => h (List.mem_cons_of_mem c m))
    simpa [List.dropWhile_cons, hc] using ih2

lemma pySplitOnce_pipe (off suffix : List Char) (h : '|' ∉ off) :
    pySplitOnce '|' (off ++ '|' :: suffix) = (off, suffix) := by
  unfold pySplitOnce
  rw [takeWhile_append_pipe off suffix h, dropWhile_append_pipe off suffix h]
  rfl

lemma reconstruct_url_pipe_some (base off suffix : List Char) (hoff : '|' ∉ off)
    (o : Int) (ho : pyInt? off = some o) :
    reconstruct_url base (off ++ '|' :: suffix) =
      if 0 < o ∧ o ≤ (base.length : Int) then base.take o.toNat ++ suffix
      else off ++ '|' :: suffix := by
  have hcond : ¬(off ++ '|' :: suffix = [] ∨ '|' ∉ off ++ '|' :: suffix) := by
    simp
  unfold reconstruct_url
  rw [if_neg hcond]
  simp only [pySplitOnce_pipe off suffix hoff, ho]

lemma reconstruct_url_pipe_none (base off suffix : List Char) (hoff : '|' ∉ off)
    (ho : pyInt? off = none) :
    reconstruct_url base (off ++ '|' :: suffix) = off ++ '|' :: suffix := by
  have hcond : ¬(off ++ '|' :: suffix = [] ∨ '|' ∉ off ++ '|' :: suffix) := by
    simp
  unfold reconstruct_url
  rw [if_neg hcond]
  simp only [pySplitOnce_pipe off suffix hoff, ho]

/-- **C4** (functional correctness of `reconstruct_url`, `api/utils/url_utils.py`
lines 16–28): for a relative reference of the form `<offset>|<suffix>`,
if the offset part parses as a positive integer no greater than the base
URL's length, the result is `base_url[0:offset] + suffix`; in every other
case (offset non-positive, offset larger than the base length, offset not an
integer, empty reference, or reference without a pipe) the relative
reference is returned unchanged. -/
theorem reconstruct_url_contract (base off suffix : List Char) (hoff : '|' ∉ off) :
    (∀ o : Int, pyInt? off = some o →
      ((0 < o ∧ o ≤ (base.length : Int)) →
        reconstruct_url base (off ++ '|' :: suffix) = base.take o.toNat ++ suffix) ∧
      (¬(0 < o ∧ o ≤ (base.length : Int)) →
        reconstruct_url base (off ++ '|' :: suffix) = off ++ '|' :: suffix)) ∧
    (pyInt? off = none → reconstruct_url base (off ++ '|' :: suffix) = off ++ '|' :: suffix) ∧
    (∀ rel : List Char, rel = [] ∨ '|' ∉ rel → reconstruct_url base rel = rel) := by
  refine ⟨?_, ?_, ?_⟩
  · intro o ho
    constructor
    · intro hcond
      rw [reconstruct_url_pipe_some base off suffix hoff o ho, if_pos hcond]
    · intro hcond
      rw [reconstruct_url_pipe_some base off suffix hoff o ho, if_neg hcond]
  · intro ho
    exact reconstruct_url_pipe_none base off suffix hoff ho
  · intro rel h
    unfold reconstruct_url
    rw [if_pos h]

/-- Witness for `reconstruct_url_contract`: all four branches at concrete inputs. -/
theorem reconstruct_url_contract_witness :
    reconstruct_url ['a', 'b', 'c'] (['2'] ++ '|' :: ['x']) = ['a', 'b', 'c'].take ((2 : Int)).toNat ++ ['x'] ∧
    reconstruct_url ['a', 'b', 'c'] (['9'] ++ '|' :: ['x']) = ['9'] ++ '|' :: ['x'] ∧
    reconstruct_url ['a', 'b', 'c'] (['y'] ++ '|' :: ['x']) = ['y'] ++ '|' :: ['x'] ∧
    reconstruct_url ['a', 'b', 'c'] ['z'] = ['z'] :=
  ⟨((reconstruct_url_contract ['a', 'b', 'c'] ['2'] ['x'] (by decide)).1 2 (by decide)).1 (by decide),
   ((reconstruct_url_contract ['a', 'b', 'c'] ['9'] ['x'] (by decide)).1 9 (by decide)).2 (by decide),
   (reconstruct_url_contract ['a', 'b', 'c'] ['y'] ['x'] (by decide)).2.1 (by decide),
   (reconstruct_url_contract ['a', 'b', 'c'] [] [] (by decide)).2.2 ['z'] (by decide)⟩

/-- **C5 counterexample**: the spec's worked example is miscounted.  Keeping
23 characters of `https://example.com/video/stream.mp4` keeps
`https://example.com/vid` (the prefix `https://example.com/video/` has
length 26), so the code does not return
`https://example.com/video/hd_stream.mp4` for offset 23. -/
theorem reconstruct_url_example_counterexample :
    reconstruct_url "https://example.com/video/stream.mp4".data "23|hd_stream.mp4".data ≠
      "https://example.com/video/hd_stream.mp4".data := by decide

/-- **C5 amended**: on the spec's base URL, offset 23 yields
`https://example.com/vidhd_stream.mp4`; the output the spec expected is the
one for offset 26 (the length of `https://example.com/video/`).  An empty
relative reference, or one without a `|`, is returned unchanged. -/
theorem reconstruct_url_example_amended :
    reconstruct_url "https://example.com/video/stream.mp4".data "23|hd_stream.mp4".data =
      "https://example.com/vidhd_stream.mp4".data ∧
    reconstruct_url "https://example.com/video/stream.mp4".data "26|hd_stream.mp4".data =
      "https://example.com/video/hd_stream.mp4".data ∧
    reconstruct_url "https://example.com/video/stream.mp4".data [] = [] ∧
    (∀ rel : List Char, '|' ∉ rel →
      reconstruct_url "https://example.com/video/stream.mp4".data rel = rel) := by
  refine ⟨by decide, by decide, by decide, ?_⟩
  intro rel h
  unfold reconstruct_url
  rw [if_pos (Or.inr h)]

/-- Witness for `reconstruct_url_example_amended`. -/
theorem reconstruct_url_example_amended_witness :
    reconstruct_url "https://example.com/video/stream.mp4".data "hd_stream.mp4".data =
      "hd_stream.mp4".data :=
  reconstruct_url_example_amended.2.2.2 "hd_stream.mp4".data (by decide)

example : parseArrayValues "\"a\", \"b\" , 17, \"c\"".data =
    [['a'], ['b'], [], ['c']] := by decide
example : parseArrayValues "\"a\\\"b\"".data = [['a', '"', 'b']] := by decide
example : parseArrayValues "\"a\\\\\", true".data = [['a', '\\'], []] := by decide

lemma esc_head_ne_quote {c : Char} {t : List Char} (h : Esc (c :: t)) : c ≠ '"' := by
  cases h with
  | quote _ => decide
  | slash _ => decide
  | other _ hq _ => exact hq

lemma replQuote_cons_ne {c : Char} (hc : c ≠ '\\') (l : List Char) :
    replQuote (c :: l) = c :: replQuote l := by
  cases l with
  | nil => rfl
  | cons c2 t2 => simp [replQuote, hc]

lemma replBackslash_cons_ne {c : Char} (hc : c ≠ '\\') (l : List Char) :
    replBackslash (c :: l) = c :: replBackslash l := by
  cases l with
  | nil => rfl
  | cons c2 t2 => simp [replBackslash, hc]

lemma escMid_cons_ne {c : Char} (hc : c ≠ '\\') (l : List Char) :
    escMid (c :: l) = c :: escMid l := by
  cases l with
  | nil => rfl
  | cons c2 t2 => simp [escMid, hc]

lemma replQuote_esc_backslash {t : List Char} (h : Esc t) :
    replQuote ('\\' :: '\\' :: t) = '\\' :: '\\' :: replQuote t := by
  cases t with
  | nil => decide
  | cons c3 t3 =>
    have hq : c3 ≠ '"' := esc_head_ne_quote h
    simp [replQuote, hq]

lemma replQuote_quote (t : List Char) : replQuote ('\\' :: '"' :: t) = '"' :: replQuote t := by
  simp [replQuote]

lemma replBackslash_bs_bs (l : List Char) :
    replBackslash ('\\' :: '\\' :: l) = '\\' :: replBackslash l := by
  simp [replBackslash]

lemma unescSpec_cons_ne {c : Char} (hc : c ≠ '\\') (l : List Char) :
    unescSpec (c :: l) = c :: unescSpec l := by
  cases l with
  | nil => rfl
  | cons c2 t2 => simp [unescSpec, hc]

lemma escMid_quote (t : List Char) : escMid ('\\' :: '"' :: t) = '"' :: escMid t := by
  simp [escMid]

lemma escMid_slash (t : List Char) : escMid ('\\' :: '\\' :: t) = '\\' :: '\\' :: escMid t := by
  simp [escMid]

lemma unescSpec_quote (t : List Char) : unescSpec ('\\' :: '"' :: t) = '"' :: unescSpec t := by
  simp [unescSpec]

lemma unescSpec_slash (t : List Char) : unescSpec ('\\' :: '\\' :: t) = '\\' :: unescSpec t := by
  simp [unescSpec]

/-- The first `replace` of line 216 collapses exactly the `\"` escapes of an
escaped literal. -/
lemma replQuote_esc {l : List Char} (h : Esc l) : replQuote l = escMid l := by
  induction h with
  | nil => rfl
  | quote h ih => rw [replQuote_quote, escMid_quote, ih]
  | slash h ih => rw [replQuote_esc_backslash h, escMid_slash, ih]
  | other hc hq h ih => rw [replQuote_cons_ne hc, escMid_cons_ne hc, ih]

/-- The second `replace` of line 216 collapses the remaining `\\` escapes,
landing on the single-pass unescaped value. -/
lemma replBackslash_escMid {l : List Char} (h : Esc l) :
    replBackslash (escMid l) = unescSpec l := by
  induction h with
  | nil => rfl
  | quote h ih => rw [escMid_quote, unescSpec_quote, replBackslash_cons_ne (by decide), ih]
  | slash h ih => rw [escMid_slash, unescSpec_slash, replBackslash_bs_bs, ih]
  | other hc hq h ih =>
    rw [escMid_cons_ne hc, unescSpec_cons_ne hc, replBackslash_cons_ne hc, ih]

/-- On an escaped literal, the source's two sequential `replace` calls agree
with the single-pass unescape of the claim. -/
lemma unescapeValue_esc {l : List Char} (h : Esc l) : unescapeValue l = unescSpec l := by
  unfold unescapeValue
  rw [replQuote_esc h, replBackslash_escMid h]

lemma scanQuoted_quote_head (t : List Char) : scanQuoted ('"' :: t) = ([], t) := by
  unfold scanQuoted
  rw [if_neg (by decide), if_pos rfl]

lemma scanQuoted_backslash (c2 : Char) (t2 : List Char) :
    scanQuoted ('\\' :: c2 :: t2) = ('\\' :: c2 :: (scanQuoted t2).1, (scanQuoted t2).2) := by
  conv_lhs => unfold scanQuoted
  rw [if_pos rfl]

lemma scanQuoted_other {c : Char} (hbs : c ≠ '\\') (hq : c ≠ '"') (t : List Char) :
    scanQuoted (c :: t) = (c :: (scanQuoted t).1, (scanQuoted t).2) := by
  conv_lhs => unfold scanQuoted
  rw [if_neg hbs, if_neg hq]

/-- The quoted-string scan stops exactly at the closing quote of an escaped
literal: every quote inside the literal is consumed by an escape pair. -/
lemma scanQuoted_esc {raw : List Char} (h : Esc raw) (rest : List Char) :
    scanQuoted (raw ++ '"' :: rest) = (raw, rest) := by
  induction h with
  | nil => exact scanQuoted_quote_head rest
  | quote h ih => rw [List.cons_append, List.cons_append, scanQuoted_backslash, ih]
  | slash h ih => rw [List.cons_append, List.cons_append, scanQuoted_backslash, ih]
  | other hc hq h ih => rw [List.cons_append, scanQuoted_other hc hq, ih]

lemma skipSep_length_le (s : List Char) : (skipSep s).length ≤ s.length := by
  induction s with
  | nil => simp [skipSep]
  | cons c t ih =>
    by_cases hc : c = ' ' ∨ c = '\t' ∨ c = '\n' ∨ c = '\r' ∨ c = ','
    · simp only [skipSep, if_pos hc]
      exact le_trans ih (by simp)
    · simp [skipSep, hc]

lemma skipNonString_length_le (s : List Char) : (skipNonString s).length ≤ s.length := by
  induction s with
  | nil => simp [skipNonString]
  | cons c t ih =>
    by_cases hc : c = ',' ∨ c = ']'
    · simp only [skipNonString, if_pos hc]
      exact le_rfl
    · simp only [skipNonString, if_neg hc]
      exact le_trans ih (by simp)

lemma scanQuoted_snd_length_le : (l : List Char) → (scanQuoted l).2.length ≤ l.length
  | [] => by simp [scanQuoted]
  | c :: t => by
    by_cases hbs : c = '\\'
    · subst hbs
      cases t with
      | nil => decide
      | cons c2 t2 =>
        have ih := scanQuoted_snd_length_le t2
        rw [scanQuoted_backslash]
        simp only [List.length_cons]
        omega
    · by_cases hq : c = '"'
      · subst hq
        rw [scanQuoted_quote_head]
        simp
      · have ih := scanQuoted_snd_length_le t
        rw [scanQuoted_other hbs hq]
        simp only [List.length_cons]
        omega

/-- Unfolding equation of the scanner loop at positive fuel. -/
lemma parseValuesAux_succ (f : Nat) (s : List Char) :
    parseValuesAux (f + 1) s =
      match skipSep s with
      | [] => []
      | c :: t =>
        if c = '"' then
          unescapeValue (scanQuoted t).1 :: parseValuesAux f (scanQuoted t).2
        else
          let rest := skipNonString (c :: t)
          if rest.length < s.length then [] :: parseValuesAux f rest
          else [[]] := rfl

/-- The scanner's result does not depend on the fuel, as long as the fuel
exceeds the input length: every loop iteration that recurses consumes at
least one character. -/
lemma parseValuesAux_stable : ∀ (f1 f2 : Nat) (s : List Char),
    s.length < f1 → s.length < f2 → parseValuesAux f1 s = parseValuesAux f2 s := by
  intro f1
  induction f1 with
  | zero =>
    intro f2 s h1 h2
    exact absurd h1 (by omega)
  | succ a ih =>
    intro f2 s h1 h2
    cases f2 with
    | zero => exact absurd h2 (by omega)
    | succ b =>
      rw [parseValuesAux_succ a s, parseValuesAux_succ b s]
      have hsk := skipSep_length_le s
      cases hs : skipSep s with
      | nil => rfl
      | cons c t =>
        dsimp only
        rw [hs] at hsk
        have hslen : t.length + 1 ≤ s.length := by simpa using hsk
        by_cases hc : c = '"'
        · rw [if_pos hc, if_pos hc]
          have hq := scanQuoted_snd_length_le t
          rw [ih b (scanQuoted t).2 (by omega) (by omega)]
        · rw [if_neg hc, if_neg hc]
          have hns := skipNonString_length_le (c :: t)
          by_cases hlt : (skipNonString (c :: t)).length < s.length
          · rw [if_pos hlt, if_pos hlt, ih b (skipNonString (c :: t)) (by omega) (by omega)]
          · rw [if_neg hlt, if_neg hlt]

lemma skipSep_quote (l : List Char) : skipSep ('"' :: l) = '"' :: l := by
  unfold skipSep
  rw [if_neg (by decide)]

/-- **C9** (the scanner's escape handling, `_parse_array_values`,
`api/services/parser_service.py` lines 202–218): for every quoted token
whose source text `s` is an escaped literal (every backslash opening a
`\"` or `\\` escape, every quote escaped), the scanner's output token is
the exactly unescaped literal value — each backslash-quote becomes a
quote, each backslash-backslash a single backslash — and scanning the
token at the head of an array body emits exactly that value and continues
with the remainder of the body, so the result holds at every token
position reachable by the scan. -/
theorem scanner_unescapes {s : List Char} (h : Esc s) :
    unescapeValue s = unescSpec s ∧
    ∀ rest : List Char,
      parseArrayValues ('"' :: s ++ '"' :: rest) = unescSpec s :: parseArrayValues rest := by
  refine ⟨unescapeValue_esc h, ?_⟩
  intro rest
  unfold parseArrayValues
  rw [List.cons_append, parseValuesAux_succ, skipSep_quote]
  dsimp only
  rw [if_pos rfl, scanQuoted_esc h rest]
  dsimp only
  rw [unescapeValue_esc h,
    parseValuesAux_stable ('"' :: (s ++ '"' :: rest)).length (rest.length + 1) rest
      (by simp only [List.length_cons, List.length_append]; omega) (by omega)]

/-- Witness for `scanner_unescapes`: the token source `a\"b\\` scans to
`a"b\`. -/
theorem scanner_unescapes_witness :
    parseArrayValues ('"' :: ['a', '\\', '"', 'b', '\\', '\\'] ++ '"' :: []) =
      [['a', '"', 'b', '\\']] := by
  have h : Esc ['a', '\\', '"', 'b', '\\', '\\'] :=
    Esc.other (by decide) (by decide)
      (Esc.quote (Esc.other (by decide) (by decide) (Esc.slash Esc.nil)))
  rw [(scanner_unescapes h).2 []]
  decide

/-- A run that observes no cancellation folds every mapped record into the
table, in order, regardless of how the records fall into batches, and
counts every submitted record. -/
lemma importLoop_none_eq : ∀ (bodies : List (List Char)) (pc pt : List Char)
    (entries : List Entry) (total : Nat) (db : Db) (st : PStatus) (d : Bool),
    importLoop false none bodies pc pt entries total db st d =
      runOutcome total db (entries ++ mapRecords pc pt bodies) d := by
  intro bodies
  induction bodies with
  | nil =>
    intro pc pt entries total db st d
    show finishRun entries total db d = _
    rw [show mapRecords pc pt [] = [] from rfl, List.append_nil]
    unfold finishRun runOutcome
    by_cases he : entries = []
    · subst he
      simp [insert_batch]
    · rw [if_neg he]
  | cons body rest ih =>
    intro pc pt entries total db st d
    simp only [importLoop, mapRecords]
    rw [if_neg (show ¬(cancelNow false none = true) from by simp [cancelNow])]
    simp only [show tickCancel none = none from rfl]
    set values := parseArrayValues body with hv
    by_cases h3 : values.length < 3
    · rw [if_pos h3, if_pos h3]
      exact ih pc pt entries total db st d
    · rw [if_neg h3, if_neg h3]
      set ch := if getTok values 0 ≠ [] then getTok values 0 else pc with hch
      set th := if getTok values 1 ≠ [] then getTok values 1 else pt with hth
      by_cases hs : ch = [] ∨ th = []
      · rw [if_pos hs, if_pos hs]
        exact ih ch th entries total db st d
      · rw [if_neg hs, if_neg hs]
        set e := mkEntry ch th values with he
        by_cases hb : PARSER_BATCH_SIZE ≤ (entries ++ [e]).length
        · rw [if_pos hb, ih]
          simp only [runOutcome, List.nil_append]
          set L := mapRecords ch th rest with hL
          have hlen : total + (entries ++ [e]).length + L.length =
              total + (entries ++ e :: L).length := by
            simp only [List.length_append, List.length_cons, List.length_nil]
            omega
          have hdb : insert_batch (insert_batch db (entries ++ [e]) d) L d =
              insert_batch db (entries ++ e :: L) d := by
            unfold insert_batch
            rw [← List.foldl_append]
            congr 1
            simp
          rw [hlen, hdb]
        · rw [if_neg hb, ih]
          rw [show (entries ++ [e]) ++ mapRecords ch th rest =
              entries ++ e :: mapRecords ch th rest from by simp]

/-- **C3 counterexample**: a full-mode run over two records sharing the
(channel, theme, title) key returns 2, while only one row is durable — the
return value counts submitted records, not records actually applied. -/
theorem returned_count_exceeds_durable :
    (parse_and_import ⟨parsingStatus, false⟩ none
        ["\"A\",\"T\",\"X\",\"d1\"".data, "\"A\",\"T\",\"X\",\"d2\"".data] [] false).total = 2 ∧
    (parse_and_import ⟨parsingStatus, false⟩ none
        ["\"A\",\"T\",\"X\",\"d1\"".data, "\"A\",\"T\",\"X\",\"d2\"".data] [] false).db.length = 1 := by
  exact ⟨by decide, by decide⟩

/-- **C3 amended**: an uncancelled `parse_and_import` run returns the number
of mapped records submitted in committed batches — duplicates later dropped
or overwritten by the conflict policy included — and the table after the
run is the in-order upsert of exactly those records. -/
theorem returned_count_is_submitted_count (svc : Svc) (bodies : List (List Char))
    (db : Db) (is_diff : Bool) :
    (parse_and_import svc none bodies db is_diff).total = (mapRecords [] [] bodies).length ∧
    (parse_and_import svc none bodies db is_diff).db =
      insert_batch db (mapRecords [] [] bodies) is_diff := by
  unfold parse_and_import
  rw [importLoop_none_eq]
  simp [runOutcome]

/-- **C10** (`parse_and_import`, lines 80–87 and `cancel`, lines 261–263):
the run clears `should_cancel` on entry, so its outcome is independent of
the flag's prior value and of the prior status; a `cancel()` issued before
the run starts has no effect, and without an in-run cancel request the run
terminates in the `complete` state. -/
theorem cancel_flag_cleared_on_start (st : PStatus) (b : Bool) (cancelIn : Option Nat)
    (bodies : List (List Char)) (db : Db) (is_diff : Bool) :
    parse_and_import ⟨st, b⟩ cancelIn bodies db is_diff =
      parse_and_import ⟨parsingStatus, false⟩ cancelIn bodies db is_diff ∧
    (parse_and_import ⟨st, b⟩ none bodies db is_diff).status.state = "complete" := by
  constructor
  · rfl
  · unfold parse_and_import
    rw [importLoop_none_eq]
    rfl

/-- A cancel request that arrives at poll point `j` truncates the run to the
first `j` records: the loop breaks at the poll, flushes the pending batch
and completes exactly as a run over the truncated input would. -/
lemma importLoop_cancel_take : ∀ (bodies : List (List Char)) (j : Nat) (pc pt : List Char)
    (entries : List Entry) (total : Nat) (db : Db) (st : PStatus) (d : Bool),
    importLoop false (some j) bodies pc pt entries total db st d =
      importLoop false none (bodies.take j) pc pt entries total db st d := by
  intro bodies
  induction bodies with
  | nil =>
    intro j pc pt entries total db st d
    cases j <;> rfl
  | cons body rest ih =>
    intro j pc pt entries total db st d
    cases j with
    | zero => rfl
    | succ n =>
      show _ = importLoop false none (body :: rest.take n) pc pt entries total db st d
      simp only [importLoop]
      rw [if_neg (show ¬(cancelNow false (some (n + 1)) = true) from by simp [cancelNow]),
          if_neg (show ¬(cancelNow false none = true) from by simp [cancelNow])]
      simp only [show tickCancel (some (n + 1)) = some n from by simp [tickCancel],
                 show tickCancel none = none from rfl]
      set values := parseArrayValues body with hv
      by_cases h3 : values.length < 3
      · rw [if_pos h3, if_pos h3]
        exact ih n pc pt entries total db st d
      · rw [if_neg h3, if_neg h3]
        set ch := if getTok values 0 ≠ [] then getTok values 0 else pc with hch
        set th := if getTok values 1 ≠ [] then getTok values 1 else pt with hth
        by_cases hs : ch = [] ∨ th = []
        · rw [if_pos hs, if_pos hs]
          exact ih n ch th entries total db st d
        · rw [if_neg hs, if_neg hs]
          set e := mkEntry ch th values with he
          by_cases hb : PARSER_BATCH_SIZE ≤ (entries ++ [e]).length
          · rw [if_pos hb, if_pos hb]
            exact ih n ch th [] _ _ _ d
          · rw [if_neg hb, if_neg hb]
            exact ih n ch th (entries ++ [e]) total db st d

lemma decompressLoop_cancelled : ∀ (chunks : List (List Char)) (k : Nat)
    (written : List (List Char)) (st : PStatus), k < chunks.length →
    (decompressLoop false (some k) chunks written st).ok = false ∧
    (decompressLoop false (some k) chunks written st).status = st := by
  intro chunks
  induction chunks with
  | nil =>
    intro k written st hk
    exact absurd hk (by simp)
  | cons c rest ih =>
    intro k written st hk
    cases k with
    | zero => exact ⟨rfl, rfl⟩
    | succ n =>
      show (decompressLoop false (tickCancel (some (n + 1))) rest (written ++ [c]) st).ok = false ∧ _
      simp only [show tickCancel (some (n + 1)) = some n from by simp [tickCancel]]
      exact ih n (written ++ [c]) st (by simpa using Nat.lt_of_succ_lt_succ hk)

/-- **C1 counterexample**: a run of `parse_and_import` with the cancellation
flag set while the run is active (observed at the first poll point, with a
record still pending) terminates in state `complete`, not `cancelled` —
the parser service never reports a `cancelled` state. -/
theorem cancelled_state_counterexample :
    (parse_and_import ⟨parsingStatus, false⟩ (some 0)
        ["\"A\",\"T\",\"X\"".data] [] false).status.state ≠ "cancelled" ∧
    (parse_and_import ⟨parsingStatus, false⟩ (some 0)
        ["\"A\",\"T\",\"X\"".data] [] false).status.state = "complete" := by
  exact ⟨by decide, by decide⟩

/-- **C1 amended**: when the cancellation flag is set at poll point `j` of a
`parse_and_import` run, the run equals an uncancelled run over the first
`j` records — batches committed before the cancellation was observed
remain committed, the pending batch is still flushed — and it terminates
in state `complete` (not `cancelled`).  A `decompress_xz` run cancelled
mid-stream returns failure with the status left at `decompressing`; no
ingestion-pipeline run ever reports a `cancelled` state. -/
theorem cancellation_completes_with_committed_prefix
    (svc : Svc) (j : Nat) (bodies : List (List Char)) (db : Db) (is_diff : Bool)
    (chunks : List (List Char)) (k : Nat) (hk : k < chunks.length) :
    parse_and_import svc (some j) bodies db is_diff =
      parse_and_import svc none (bodies.take j) db is_diff ∧
    (parse_and_import svc (some j) bodies db is_diff).status.state = "complete" ∧
    (decompress_xz false (some k) chunks).ok = false ∧
    (decompress_xz false (some k) chunks).status.state = "decompressing" := by
  have h1 : parse_and_import svc (some j) bodies db is_diff =
      parse_and_import svc none (bodies.take j) db is_diff := by
    unfold parse_and_import
    exact importLoop_cancel_take bodies j [] [] [] 0 db parsingStatus is_diff
  have h2 := decompressLoop_cancelled chunks k [] decompressingStatus hk
  refine ⟨h1, ?_, h2.1, ?_⟩
  · rw [h1]
    unfold parse_and_import
    rw [importLoop_none_eq]
    rfl
  · show (decompressLoop false (some k) chunks [] decompressingStatus).status.state = _
    rw [h2.2]
    rfl

/-! ## Conflict-policy lemmas for `_insert_batch` -/

lemma insertEntry_ignore (db : Db) (e : Entry) :
    insertEntry db e false = if hasKey db (entryKey e) then db else db ++ [e] := by
  simp [insertEntry]

lemma insertEntry_update (db : Db) (e : Entry) :
    insertEntry db e true =
      if hasKey db (entryKey e) then
        db.map (fun r => if entryKey r = entryKey e then conflictUpdate r e else r)
      else db ++ [e] := by
  simp [insertEntry]

lemma findRow_append_some {db : Db} (x : List Entry) {k : List Char × List Char × List Char}
    {r : Entry} (h : findRow db k = some r) : findRow (db ++ x) k = some r := by
  unfold findRow at h ⊢
  rw [List.find?_append, h]
  rfl

lemma findRow_append_none {db : Db} (x : List Entry) {k : List Char × List Char × List Char}
    (h : findRow db k = none) : findRow (db ++ x) k = findRow x k := by
  unfold findRow at h ⊢
  rw [List.find?_append, h]
  rfl

lemma hasKey_eq_false_of_none {db : Db} {k : List Char × List Char × List Char}
    (h : findRow db k = none) : hasKey db k = false := by
  unfold findRow at h
  rw [List.find?_eq_none] at h
  unfold hasKey
  cases hany : db.any (fun r => decide (entryKey r = k)) with
  | false => rfl
  | true =>
    rw [List.any_eq_true] at hany
    obtain ⟨x, hx, hpx⟩ := hany
    exact absurd hpx (h x hx)

lemma findRow_eq_none_of_hasKey_false {db : Db} {k : List Char × List Char × List Char}
    (h : hasKey db k = false) : findRow db k = none := by
  unfold findRow
  rw [List.find?_eq_none]
  intro x hx hpx
  have : hasKey db k = true := by
    unfold hasKey
    rw [List.any_eq_true]
    exact ⟨x, hx, hpx⟩
  rw [h] at this
  cases this

/-- Insert-or-ignore never changes a row that is already present. -/
lemma findRow_insert_batch_ignore_some : ∀ (l : List Entry) (db : Db)
    (k : List Char × List Char × List Char) (r : Entry),
    findRow db k = some r → findRow (insert_batch db l false) k = some r := by
  intro l
  induction l with
  | nil => intro db k r h; exact h
  | cons a l2 ih =>
    intro db k r h
    show findRow (insert_batch (insertEntry db a false) l2 false) k = some r
    apply ih
    rw [insertEntry_ignore]
    by_cases ha : hasKey db (entryKey a) = true
    · rw [if_pos ha]; exact h
    · rw [if_neg ha]; exact findRow_append_some [a] h

/-- Insert-or-ignore over a batch, starting from a table with no row for
key `k`: the stored row for `k` afterwards is the first batch entry with
that key. -/
lemma findRow_insert_batch_ignore_none : ∀ (l : List Entry) (db : Db)
    (k : List Char × List Char × List Char),
    findRow db k = none →
    findRow (insert_batch db l false) k = l.find? (fun e => decide (entryKey e = k)) := by
  intro l
  induction l with
  | nil => intro db k h; simpa using h
  | cons a l2 ih =>
    intro db k h
    show findRow (insert_batch (insertEntry db a false) l2 false) k = _
    by_cases hk : entryKey a = k
    · have hnk : hasKey db (entryKey a) = false := by
        rw [hk]; exact hasKey_eq_false_of_none h
      have h1 : findRow (insertEntry db a false) k = some a := by
        rw [insertEntry_ignore, if_neg (by simp [hnk]), findRow_append_none [a] h]
        unfold findRow
        rw [List.find?_cons_of_pos _ (by simp [hk])]
      rw [findRow_insert_batch_ignore_some l2 _ k a h1,
        List.find?_cons_of_pos _ (by simp [hk])]
    · have h1 : findRow (insertEntry db a false) k = none := by
        rw [insertEntry_ignore]
        by_cases ha : hasKey db (entryKey a) = true
        · rw [if_pos ha]; exact h
        · rw [if_neg ha, findRow_append_none [a] h]
          unfold findRow
          rw [List.find?_cons_of_neg _ (by simp [hk])]
          rfl
      rw [ih _ k h1, List.find?_cons_of_neg _ (by simp [hk])]

/-- **C6** (`_insert_batch` with `is_diff=False`, lines 252–257): in a
full-mode run from a cleared table, the stored row under any key is the
first mapped record of the run with that key — later duplicates are
silently dropped (the point query returns the first occurrence's field
values, and no error is surfaced: the run completes, cf. `parse_and_import`). -/
theorem full_import_first_wins (svc : Svc) (bodies : List (List Char))
    (k : List Char × List Char × List Char) :
    findRow (parse_and_import svc none bodies [] false).db k =
      (mapRecords [] [] bodies).find? (fun e => decide (entryKey e = k)) := by
  unfold parse_and_import
  rw [importLoop_none_eq]
  show findRow (insert_batch [] ([] ++ mapRecords [] [] bodies) false) k = _
  rw [List.nil_append]
  exact findRow_insert_batch_ignore_none (mapRecords [] [] bodies) [] k rfl

lemma conflictUpdate_of_key_eq {a e : Entry} (h : entryKey a = entryKey e) :
    conflictUpdate a e = e := by
  unfold entryKey at h
  rw [Prod.ext_iff] at h
  obtain ⟨h1, h23⟩ := h
  rw [Prod.ext_iff] at h23
  obtain ⟨h2, h3⟩ := h23
  simp only at h1 h2 h3
  simp [conflictUpdate, h1, h2, h3]

/-- Updating every conflicting row leaves the point query returning the
incoming record's values. -/
lemma findRow_map_update : ∀ (db : Db) (e : Entry), hasKey db (entryKey e) = true →
    findRow (db.map (fun r => if entryKey r = entryKey e then conflictUpdate r e else r))
      (entryKey e) = some e := by
  intro db e
  induction db with
  | nil => intro h; simp [hasKey] at h
  | cons a t ih =>
    intro h
    by_cases ha : entryKey a = entryKey e
    · have hupd : conflictUpdate a e = e := conflictUpdate_of_key_eq ha
      simp only [List.map_cons]
      rw [if_pos ha, hupd]
      unfold findRow
      rw [List.find?_cons_of_pos _ (by simp)]
    · simp only [List.map_cons]
      rw [if_neg ha]
      unfold findRow
      rw [List.find?_cons_of_neg _ (by simp [ha])]
      apply ih
      unfold hasKey at h ⊢
      rw [List.any_eq_true] at h ⊢
      obtain ⟨x, hx, hpx⟩ := h
      rcases List.mem_cons.mp hx with hxa | hxt
      · exact absurd (by simpa using hpx) (hxa ▸ ha)
      · exact ⟨x, hxt, hpx⟩

/-- One diff-mode upsert makes the point query on the record's key return
exactly the incoming record. -/
lemma findRow_insertEntry_update (db : Db) (e : Entry) :
    findRow (insertEntry db e true) (entryKey e) = some e := by
  rw [insertEntry_update]
  by_cases hc : hasKey db (entryKey e) = true
  · rw [if_pos hc]
    exact findRow_map_update db e hc
  · rw [if_neg hc,
      findRow_append_none [e] (findRow_eq_none_of_hasKey_false (Bool.eq_false_iff.mpr hc))]
    unfold findRow
    rw [List.find?_cons_of_pos _ (by simp)]

/-- **C7** (`_insert_batch` with `is_diff=True`, lines 230–251): after two
diff-mode upserts of records sharing the (channel, theme, title) key —
whether in one batch or in separate runs against existing storage — the
stored row carries the second record's values for every non-key field
(date, time, duration, sizeMB, description, url, website, subtitleUrl,
smallUrl, hdUrl, timestamp, geo, isNew). -/
theorem diff_import_second_wins (db : Db) (e1 e2 : Entry)
    (hkey : entryKey e1 = entryKey e2) :
    ∃ r, findRow (insert_batch (insert_batch db [e1] true) [e2] true) (entryKey e2) = some r ∧
      r.date = e2.date ∧ r.time = e2.time ∧ r.duration = e2.duration ∧
      r.sizeMB = e2.sizeMB ∧ r.description = e2.description ∧ r.url = e2.url ∧
      r.website = e2.website ∧ r.subtitleUrl = e2.subtitleUrl ∧ r.smallUrl = e2.smallUrl ∧
      r.hdUrl = e2.hdUrl ∧ r.timestamp = e2.timestamp ∧ r.geo = e2.geo ∧
      r.isNew = e2.isNew := by
  refine ⟨e2, ?_, rfl, rfl, rfl, rfl, rfl, rfl, rfl, rfl, rfl, rfl, rfl, rfl, rfl⟩
  show findRow (insertEntry (insertEntry db e1 true) e2 true) (entryKey e2) = some e2
  exact findRow_insertEntry_update _ e2

/-- Witness for `diff_import_second_wins`: two same-key records whose
non-key fields differ. -/
theorem diff_import_second_wins_witness :
    ∃ r, findRow (insert_batch (insert_batch []
          [⟨['A'], ['T'], ['X'], ['1'], [], [], [], [], [], [], [], [], [], 1, [], false⟩] true)
        [⟨['A'], ['T'], ['X'], ['2'], [], [], [], [], [], [], [], [], [], 2, [], true⟩] true)
      (entryKey ⟨['A'], ['T'], ['X'], ['2'], [], [], [], [], [], [], [], [], [], 2, [], true⟩) =
        some r ∧
      r.date = ['2'] ∧ r.time = [] ∧ r.duration = [] ∧ r.sizeMB = [] ∧ r.description = [] ∧
      r.url = [] ∧ r.website = [] ∧ r.subtitleUrl = [] ∧ r.smallUrl = [] ∧ r.hdUrl = [] ∧
      r.timestamp = 2 ∧ r.geo = [] ∧ r.isNew = true :=
  diff_import_second_wins [] _ _ (by decide)

lemma resolveRecords_const (c t : List Char) : ∀ (rest : List (List (List Char))),
    (∀ v ∈ rest, ¬v.length < 3 ∧ getTok v 0 = [] ∧ getTok v 1 = []) →
    resolveRecords c t rest = rest.map (fun _ => (c, t)) := by
  intro rest
  induction rest with
  | nil => intro h; rfl
  | cons v r2 ih =>
    intro h
    obtain ⟨hlen, h0, h1⟩ := h v (List.mem_cons_self v r2)
    simp only [resolveRecords]
    rw [if_neg hlen, if_neg (by simp [h0]), if_neg (by simp [h1]), List.map_cons]
    congr 1
    exact ih (fun w hw => h w (List.mem_cons_of_mem _ hw))

/-- **C8** (inheritance, lines 111–118): if only the first scanned record
carries non-empty channel and theme tokens and every following record has
empty channel and theme tokens, every record resolves to the first
record's channel and theme — the chain never breaks, because the context
is updated with the resolved values rather than the raw tokens. -/
theorem inheritance_propagates (v0 : List (List Char)) (rest : List (List (List Char)))
    (h0 : ¬v0.length < 3) (hc : getTok v0 0 ≠ []) (ht : getTok v0 1 ≠ [])
    (hrest : ∀ v ∈ rest, ¬v.length < 3 ∧ getTok v 0 = [] ∧ getTok v 1 = []) :
    resolveRecords [] [] (v0 :: rest) =
      (v0 :: rest).map (fun _ => (getTok v0 0, getTok v0 1)) := by
  simp only [resolveRecords]
  rw [if_neg h0, if_pos hc, if_pos ht, List.map_cons]
  congr 1
  exact resolveRecords_const (getTok v0 0) (getTok v0 1) rest hrest

/-- Witness for `inheritance_propagates`: one full record followed by two
records with empty channel and theme tokens. -/
theorem inheritance_propagates_witness :
    resolveRecords [] [] [[['A'], ['T'], ['X']], [[], [], ['Y']], [[], [], ['Z']]] =
      [(['A'], ['T']), (['A'], ['T']), (['A'], ['T'])] := by
  have h := inheritance_propagates [['A'], ['T'], ['X']] [[[], [], ['Y']], [[], [], ['Z']]]
    (by decide) (by decide) (by decide) (by decide)
  rw [h]
  decide

/-- **C2 counterexample**: a second start attempted while a download with a
live status (progress 42) is in progress returns failure, but it
*does* mutate the shared status object — it is overwritten with an
`error`-state dictionary (so the rejection is not reported distinctly from
`error` either). -/
theorem concurrent_start_mutates_status :
    ((downloadFileEntry ⟨true, false, ⟨"downloading", 42, 1000, 2000, "Downloading..."⟩⟩).2.status ≠
      ⟨"downloading", 42, 1000, 2000, "Downloading..."⟩) ∧
    (downloadFileEntry ⟨true, false, ⟨"downloading", 42, 1000, 2000, "Downloading..."⟩⟩).1 =
      false ∧
    (downloadFileEntry
        ⟨true, false, ⟨"downloading", 42, 1000, 2000, "Downloading..."⟩⟩).2.status.state =
      "error" := by
  exact ⟨by decide, by decide, by decide⟩

/-- **C2 amended**: the download pipeline rejects a second concurrent start
with an immediate failure return and without stopping the in-progress run
(`is_downloading` stays true), but it overwrites the shared status object
with state `error` and message `Download already in progress`.  The parser
pipeline has no concurrent-start guard at all: `parse_and_import` runs
identically from every prior service state. -/
theorem concurrent_start_guard_behavior (svc : DlSvc) (h : svc.is_downloading = true) :
    (downloadFileEntry svc).1 = false ∧
    (downloadFileEntry svc).2.is_downloading = true ∧
    (downloadFileEntry svc).2.status =
      ⟨"error", 0, 0, 0, "Download already in progress"⟩ ∧
    ∀ (st : PStatus) (b : Bool) (cancelIn : Option Nat) (bodies : List (List Char))
      (db : Db) (is_diff : Bool),
      parse_and_import ⟨st, b⟩ cancelIn bodies db is_diff =
        parse_and_import ⟨parsingStatus, false⟩ cancelIn bodies db is_diff := by
  unfold downloadFileEntry
  rw [if_pos h]
  exact ⟨rfl, h, rfl, fun _ _ _ _ _ _ => rfl⟩

/-- Witness for `concurrent_start_guard_behavior`. -/
theorem concurrent_start_guard_witness :
    (downloadFileEntry ⟨true, false, ⟨"downloading", 7, 5, 10, "busy"⟩⟩).1 = false :=
  (concurrent_start_guard_behavior ⟨true, false, ⟨"downloading", 7, 5, 10, "busy"⟩⟩ rfl).1

/-- Witness for `cancellation_completes_with_committed_prefix`. -/
theorem cancellation_completes_witness :
    (parse_and_import ⟨parsingStatus, false⟩ (some 1)
        ["\"A\",\"T\",\"X\"".data, "\"B\",\"U\",\"Y\"".data] [] false =
      parse_and_import ⟨parsingStatus, false⟩ none
        (["\"A\",\"T\",\"X\"".data, "\"B\",\"U\",\"Y\"".data].take 1) [] false) ∧
    (parse_and_import ⟨parsingStatus, false⟩ (some 1)
        ["\"A\",\"T\",\"X\"".data, "\"B\",\"U\",\"Y\"".data] [] false).status.state = "complete" ∧
    (decompress_xz false (some 0) [['x'], ['y']]).ok = false ∧
    (decompress_xz false (some 0) [['x'], ['y']]).status.state = "decompressing" :=
  cancellation_completes_with_committed_prefix ⟨parsingStatus, false⟩ 1
    ["\"A\",\"T\",\"X\"".data, "\"B\",\"U\",\"Y\"".data] [] false [['x'], ['y']] 0 (by decide)

end Kuckmal
